import Mathlib

/-!
Verification of the TrailMapper trail-data pipeline.

The definitions below are a shallow embedding of the trail service module:
the trail classifier, the OSM response processor, the geometry utilities,
the offline cache, and the fetch orchestrator.  JavaScript numbers are
modelled as real numbers (exact arithmetic); tag dictionaries are modelled
by a structure holding the tag keys the module reads; the storage and
network layers are modelled by explicit state and environment records.
-/

open Real

/-- The raw tag attributes the module reads from a source element.
`none` models an absent key (JavaScript `undefined`). -/
structure Tags where
  highway : Option String
  horse : Option String
  bicycle : Option String
  foot : Option String
  designation : Option String
  name : Option String
deriving DecidableEq

/-- The ordered list of possible categories built by `getTrailType`:
Bridleway, Cycleway, Footpath tested in that fixed order. -/
def possibleTypes (tags : Tags) : List String :=
  (if tags.highway = some "bridleway" ∨ tags.horse = some "yes" ∨
      tags.horse = some "designated" ∨ tags.designation = some "public_bridleway"
   then ["Bridleway"] else []) ++
  (if tags.highway = some "cycleway" ∨ tags.bicycle = some "yes" ∨
      tags.bicycle = some "designated"
   then ["Cycleway"] else []) ++
  (if tags.highway = some "footway" ∨ tags.foot = some "yes" ∨
      tags.foot = some "designated" ∨ tags.designation = some "public_footpath"
   then ["Footpath"] else [])

/-- `getTrailType` from the trail service: classify a tag set, optionally
steered by the caller's active filters. -/
def getTrailType (tags : Tags) (activeFilters : Option (String → Bool)) : String :=
  let possible := possibleTypes tags
  if possible = [] then "Path"
  else
    match activeFilters with
    | some af =>
        match possible.find? af with
        | some t => t
        | none => possible.headD "Path"
    | none =>
        if "Bridleway" ∈ possible then "Bridleway"
        else if "Cycleway" ∈ possible then "Cycleway"
        else if "Footpath" ∈ possible then "Footpath"
        else "Path"

/-- `isPathOrTrail` from the trail service: the way-selection predicate for
paths and trails. -/
def isPathOrTrail (tags : Tags) : Bool :=
  tags.highway == some "footway" ||
  tags.highway == some "cycleway" ||
  tags.highway == some "path" ||
  tags.foot == some "yes" ||
  tags.bicycle == some "yes" ||
  tags.designation == some "public_footpath"

/-- `isBridleway` from the trail service: the way-selection predicate for
bridleways. -/
def isBridleway (tags : Tags) : Bool :=
  tags.highway == some "bridleway" ||
  tags.horse == some "yes" ||
  tags.horse == some "designated" ||
  tags.designation == some "public_bridleway"

/-- A latitude/longitude pair, as stored in the node index and in trail
coordinate sequences. -/
structure Coord where
  lat : ℝ
  lon : ℝ

/-- `Math.atan2`, as used by the Haversine computations: the two-argument
arctangent. -/
noncomputable def atan2 (y x : ℝ) : ℝ :=
  if 0 < x then Real.arctan (y / x)
  else if x < 0 then
    (if 0 ≤ y then Real.arctan (y / x) + π else Real.arctan (y / x) - π)
  else
    (if 0 < y then π / 2 else if y < 0 then -(π / 2) else 0)

/-- `deg2rad` from the trail service: degrees to radians. -/
noncomputable def deg2rad (deg : ℝ) : ℝ :=
  deg * (π / 180)

/-- `calculateDistance` from the trail service: Haversine great-circle
distance in kilometers between two points, Earth radius 6371 km. -/
noncomputable def calculateDistance (lat1 lon1 lat2 lon2 : ℝ) : ℝ :=
  let R : ℝ := 6371
  let dLat := deg2rad (lat2 - lat1)
  let dLon := deg2rad (lon2 - lon1)
  let a :=
    Real.sin (dLat / 2) * Real.sin (dLat / 2) +
      Real.cos (deg2rad lat1) * Real.cos (deg2rad lat2) *
        Real.sin (dLon / 2) * Real.sin (dLon / 2)
  let c := 2 * atan2 (Real.sqrt a) (Real.sqrt (1 - a))
  R * c

/-- The Haversine segment computation inlined in the body of
`calculatePathDistance` (the source repeats the formula there instead of
calling `calculateDistance`). -/
noncomputable def segmentInline (prevPoint currPoint : Coord) : ℝ :=
  let R : ℝ := 6371
  let dLat := (currPoint.lat - prevPoint.lat) * π / 180
  let dLon := (currPoint.lon - prevPoint.lon) * π / 180
  let a :=
    Real.sin (dLat / 2) * Real.sin (dLat / 2) +
      Real.cos (prevPoint.lat * π / 180) * Real.cos (currPoint.lat * π / 180) *
        Real.sin (dLon / 2) * Real.sin (dLon / 2)
  let c := 2 * atan2 (Real.sqrt a) (Real.sqrt (1 - a))
  R * c

/-- The accumulation loop of `calculatePathDistance`: starting at the second
element, add the Haversine distance from each point to its predecessor. -/
noncomputable def pathLoop : Coord → List Coord → ℝ
  | _, [] => 0
  | prevPoint, currPoint :: rest => segmentInline prevPoint currPoint + pathLoop currPoint rest

/-- `calculatePathDistance` from the trail service: total length of a
polyline in kilometers (the index loop runs over consecutive pairs; it adds
nothing for lists of fewer than two points). -/
noncomputable def calculatePathDistance : List Coord → ℝ
  | [] => 0
  | p :: rest => pathLoop p rest

/-- `parseFloat(x.toFixed(2))`: round to 2 decimal places. -/
noncomputable def round2 (x : ℝ) : ℝ :=
  ((round (x * 100) : ℤ) : ℝ) / 100

/-- A raw element of the geodata response: `{type, id, lat?, lon?, tags?,
nodes?}`.  The processor reads `lat`/`lon` only on node elements and
`tags`/`nodes` only on way elements, so the constructors carry exactly
those fields. -/
inductive OsmElement where
  | node (nid : ℤ) (lat lon : ℝ)
  | way (wid : ℤ) (tags : Option Tags) (nodes : List ℤ)
  | relation (rid : ℤ) (tags : Option Tags)

/-- A raw geodata response body with a valid `elements` array. -/
structure OsmData where
  elements : List OsmElement

/-- A normalized trail record. -/
structure Trail where
  id : String
  name : String
  type : String
  distance : ℝ
  coordinates : Option (List Coord)
  lat : Option ℝ
  lon : Option ℝ

/-- The node index built by the first pass of `processOsmData`: every node
element is written into a dictionary keyed by its identifier, a later node
with the same identifier overwriting an earlier one. -/
def lookupNode (elements : List OsmElement) (nid : ℤ) : Option Coord :=
  elements.foldl
    (fun acc el =>
      match el with
      | OsmElement.node i la lo => if i = nid then some ⟨la, lo⟩ else acc
      | _ => acc)
    none

/-- Resolve a way's node-identifier list against the node index, dropping
unresolvable references (`.map` then `.filter(node !== undefined)`). -/
def resolveCoords (nodeAt : ℤ → Option Coord) (nds : List ℤ) : List Coord :=
  (nds.map nodeAt).reduceOption

/-- The per-element body of the second pass of `processOsmData`: a way whose
tags pass the selection predicates and whose node list resolves to more than
one point yields a trail record; everything else yields nothing. -/
noncomputable def processElement (nodeAt : ℤ → Option Coord)
    (activeFilters : Option (String → Bool)) : OsmElement → Option Trail
  | OsmElement.way wid tags nds =>
    match tags with
    | some t =>
      if isPathOrTrail t || isBridleway t then
        let trailType := getTrailType t activeFilters
        let name :=
          match t.name with
          | some s => if s = "" then trailType ++ " Path" else s
          | none => trailType ++ " Path"
        let coords := resolveCoords nodeAt nds
        if 1 < coords.length then
          some
            { id := "osm-" ++ toString wid
              name := name
              type := trailType
              distance := round2 (calculatePathDistance coords)
              coordinates := some coords
              lat := none
              lon := none }
        else none
      else none
    | none => none
  | _ => none

/-- `processOsmData` from the trail service: collect the node index, then
emit a record for each selected way, in source order. -/
noncomputable def processOsmData (osmData : OsmData)
    (activeFilters : Option (String → Bool)) : List Trail :=
  osmData.elements.filterMap (processElement (lookupNode osmData.elements) activeFilters)

/-! ### Cache keys as character strings

Cache keys are character lists; the number-to-string interpolation used by
the write path and the `Number()` decoding used by the read path are
modelled character by character. -/

/-- Storage keys, modelled as character lists. -/
abbrev Key := List Char

/-- The character for a single decimal digit. -/
def digitChar (d : ℕ) : Char :=
  Char.ofNat (48 + d)

/-- Decode one character back to a decimal digit, if it is one. -/
def charDigit (c : Char) : Option ℕ :=
  if 48 ≤ c.toNat ∧ c.toNat ≤ 57 then some (c.toNat - 48) else none

/-- Decimal rendering of a natural number, most significant digit first. -/
def encodeNat (m : ℕ) : List Char :=
  if m = 0 then ['0'] else ((Nat.digits 10 m).map digitChar).reverse

/-- The fractional part of the rendering of `n / 100`: JavaScript prints the
shortest form, so a multiple of 100 has no point, a multiple of 10 has one
fractional digit, and anything else has two. -/
def fracChars (f : ℕ) : List Char :=
  if f = 0 then []
  else if f % 10 = 0 then ['.', digitChar (f / 10)]
  else ['.', digitChar (f / 10), digitChar (f % 10)]

/-- Rendering of the number `n / 100` (`n` in hundredths), as JavaScript
string interpolation prints `Math.round(x*100)/100`. -/
def encodeCenti (n : ℤ) : List Char :=
  (if n < 0 then ['-'] else []) ++
    (encodeNat (n.natAbs / 100) ++ fracChars (n.natAbs % 100))

/-- One step of digit-string accumulation; `none` once a non-digit is hit. -/
def parseStep (acc : Option ℕ) (c : Char) : Option ℕ :=
  acc.bind fun a => (charDigit c).map fun d => a * 10 + d

/-- Accumulate a digit string left to right; `none` on a non-digit. -/
def parseVal (cs : List Char) : Option ℕ :=
  cs.foldl parseStep (some 0)

/-- Parse a nonempty string of decimal digits. -/
def parseDigits (cs : List Char) : Option ℕ :=
  if cs = [] then none else parseVal cs

/-- Split a character list at every occurrence of a separator
(`String.prototype.split` with a one-character separator). -/
def splitOnChar (sep : Char) : List Char → List (List Char)
  | [] => [[]]
  | c :: cs =>
    let r := splitOnChar sep cs
    if c = sep then [] :: r else (c :: r.headD []) :: r.tail

/-- `Number()` on an unsigned decimal string: an integer part, optionally a
point and a fractional part; anything else is NaN (`none`). -/
def parseUnsigned (cs : List Char) : Option ℚ :=
  match splitOnChar '.' cs with
  | [ip] =>
    match parseDigits ip with
    | some n => some (n : ℚ)
    | none => none
  | [ip, fp] =>
    match parseDigits ip, parseDigits fp with
    | some i, some f => some ((i : ℚ) + (f : ℚ) / 10 ^ fp.length)
    | _, _ => none
  | _ => none

/-- `Number()` on a decimal string with an optional leading minus sign. -/
def parseNum (cs : List Char) : Option ℚ :=
  if cs.head? = some '-' then (parseUnsigned cs.tail).map fun q => -q
  else parseUnsigned cs

/-- `Math.round(x*100)/100` as an exact rational. -/
noncomputable def roundTo2 (x : ℝ) : ℚ :=
  ((round (x * 100) : ℤ) : ℚ) / 100

/-- The cache key written by `cacheTrailData`:
`trails_<lat rounded to 2dp>_<lon rounded to 2dp>`. -/
noncomputable def cacheKey (latitude longitude : ℝ) : Key :=
  "trails".data ++ '_' ::
    (encodeCenti (round (latitude * 100)) ++ '_' :: encodeCenti (round (longitude * 100)))

/-- The decoding used by the nearest-key search of `fetchOfflineTrails`:
`key.split('_').map(Number)` destructured at positions 1 and 2 (a missing
part, like a NaN, makes the distance NaN and is modelled as `none`). -/
def keyParse (k : Key) : Option ℚ × Option ℚ :=
  let parts := (splitOnChar '_' k).map parseNum
  (parts.getD 1 none, parts.getD 2 none)

/-! ### Offline cache and fetch orchestrator

The persistence layer is a key-value store; each environment record says
which storage or network operations fail (a JavaScript `throw`), so the
theorems below quantify over every behaviour of those layers. -/

/-- A persisted cache entry: `{timestamp, data}`. -/
structure CacheValue where
  timestamp : ℤ
  data : List Trail

/-- The key-value storage contents. -/
abbrev Store := List (Key × CacheValue)

/-- `AsyncStorage.getAllKeys`. -/
def getAllKeys (store : Store) : List Key :=
  store.map Prod.fst

/-- `AsyncStorage.getItem`. -/
def getItem (store : Store) (k : Key) : Option CacheValue :=
  store.lookup k

/-- `AsyncStorage.setItem`: replace any existing value at the key. -/
def setItem (store : Store) (k : Key) (v : CacheValue) : Store :=
  store.filter (fun e => e.fst ≠ k) ++ [(k, v)]

/-- Which storage operations throw during a given call. -/
structure StorageEnv where
  getAllKeysFails : Bool
  getItemFails : Bool
  parseFails : Bool
  setItemFails : Bool

/-- The JavaScript `<` comparison used by the nearest-key loop, on values
that may be `Infinity` (the initial minimum, the second argument's `none`)
or `NaN` (an unparseable key, the first argument's `none`); any comparison
against NaN is false. -/
def jsLt (d m : Option ℝ) : Prop :=
  match d, m with
  | none, _ => False
  | some _, none => True
  | some x, some y => x < y

noncomputable instance (d m : Option ℝ) : Decidable (jsLt d m) :=
  Classical.propDecidable (jsLt d m)

/-- The Euclidean distance, in rounded-degree space, between a cached key's
decoded coordinates and the query point (`NaN` as `none`). -/
noncomputable def keyDist (roundedLat roundedLon : ℚ) (k : Key) : Option ℝ :=
  match keyParse k with
  | (some a, some b) =>
    some (Real.sqrt (((a : ℝ) - (roundedLat : ℝ)) ^ 2 + ((b : ℝ) - (roundedLon : ℝ)) ^ 2))
  | _ => none

/-- The nearest-key loop of `fetchOfflineTrails`: starting from the empty
closest key and an infinite minimum, keep each key whose distance beats the
minimum so far. -/
noncomputable def findClosest (dist : Key → Option ℝ) :
    List Key → Key × Option ℝ → Key × Option ℝ
  | [], acc => acc
  | k :: ks, acc =>
    if jsLt (dist k) acc.snd then findClosest dist ks (k, dist k)
    else findClosest dist ks acc

/-- `fetchOfflineTrails` from the trail service: round the query point, find
the closest cached key, and return that entry's trail list; every failure
path inside the surrounding `try` resolves to the empty list. -/
noncomputable def fetchOfflineTrails (env : StorageEnv) (store : Store)
    (latitude longitude : ℝ) : List Trail :=
  if env.getAllKeysFails then []
  else
    let roundedLat := roundTo2 latitude
    let roundedLon := roundTo2 longitude
    let trailKeys := (getAllKeys store).filter (fun k => "trails_".data.isPrefixOf k)
    if trailKeys = [] then []
    else
      let closestKey := (findClosest (keyDist roundedLat roundedLon) trailKeys ([], none)).fst
      if env.getItemFails then []
      else
        match getItem store closestKey with
        | some v => if env.parseFails then [] else v.data
        | none => []

/-- `cacheTrailData` from the trail service: write the trail list under the
rounded key; a storage failure is swallowed and leaves the store unchanged. -/
noncomputable def cacheTrailData (env : StorageEnv) (store : Store)
    (latitude longitude : ℝ) (trails : List Trail) (now : ℤ) : Store :=
  if env.setItemFails then store
  else setItem store (cacheKey latitude longitude) ⟨now, trails⟩

/-- The outcome of the network leg of a fetch: a parsed body with a valid
`elements` array, an OK response whose body lacks one, a non-success
status, a request error, or the 10-second timeout firing. -/
inductive NetOutcome where
  | ok (data : OsmData)
  | invalidBody
  | httpNotOk
  | netFailure
  | timeout

/-- One call's worth of environment behaviour: the connectivity probe (which
may itself throw), the network outcome, the storage behaviour, and the
clock. -/
structure FetchEnv where
  probeFails : Bool
  isConnected : Bool
  net : NetOutcome
  storage : StorageEnv
  now : ℤ

/-- What a call to the orchestrator produced: the resolved trail list,
whether a network request was issued, and the storage contents afterwards. -/
structure FetchResult where
  trails : List Trail
  networkRequested : Bool
  store : Store

/-- `fetchNearbyTrails` from the trail service: check connectivity; offline
delegates to the offline cache; online issues the request, processes a good
body and writes it through to the cache, and falls back to the offline
cache on every failure. -/
noncomputable def fetchNearbyTrails (env : FetchEnv) (store : Store)
    (latitude longitude : ℝ) (radius : ℝ)
    (activeFilters : Option (String → Bool)) : FetchResult :=
  if env.probeFails then
    { trails := fetchOfflineTrails env.storage store latitude longitude
      networkRequested := false
      store := store }
  else if !env.isConnected then
    { trails := fetchOfflineTrails env.storage store latitude longitude
      networkRequested := false
      store := store }
  else
    match env.net with
    | NetOutcome.ok data =>
      let trails := processOsmData data activeFilters
      { trails := trails
        networkRequested := true
        store := cacheTrailData env.storage store latitude longitude trails env.now }
    | _ =>
      { trails := fetchOfflineTrails env.storage store latitude longitude
        networkRequested := true
        store := store }

/-! ### Theorems -/

/-- Claim C1: for every input and every behaviour of the connectivity probe,
network, and storage layer, `fetchNearbyTrails` always resolves to a trail
list: either the call succeeded end to end and the list is the processed
response body, or — on any failure in the network path (probe throw,
connectivity off, request error, timeout, non-success status, or body
without a valid elements array) — the list is the offline-cache nearest
read for that point. -/
theorem claim1_fetch_always_resolves_with_fallback (env : FetchEnv) (store : Store)
    (latitude longitude radius : ℝ) (activeFilters : Option (String → Bool)) :
    (∃ data, env.probeFails = false ∧ env.isConnected = true ∧
        env.net = NetOutcome.ok data ∧
        (fetchNearbyTrails env store latitude longitude radius activeFilters).trails =
          processOsmData data activeFilters) ∨
      (fetchNearbyTrails env store latitude longitude radius activeFilters).trails =
        fetchOfflineTrails env.storage store latitude longitude := by
  unfold fetchNearbyTrails
  cases hp : env.probeFails with
  | true => simp
  | false =>
    cases hc : env.isConnected with
    | false => simp
    | true =>
      cases hn : env.net with
      | ok data => exact Or.inl ⟨data, rfl, rfl, rfl, by simp⟩
      | invalidBody => simp
      | httpNotOk => simp
      | netFailure => simp
      | timeout => simp

/-- Claim C2: when the connectivity probe reports offline,
`fetchNearbyTrails` returns exactly the offline cache's nearest read for
the point, performs no network request, and leaves the store untouched. -/
theorem claim2_offline_delegates_to_cache (env : FetchEnv) (store : Store)
    (latitude longitude radius : ℝ) (activeFilters : Option (String → Bool))
    (hprobe : env.probeFails = false) (hoff : env.isConnected = false) :
    fetchNearbyTrails env store latitude longitude radius activeFilters =
      { trails := fetchOfflineTrails env.storage store latitude longitude
        networkRequested := false
        store := store } := by
  unfold fetchNearbyTrails
  simp [hprobe, hoff]

theorem claim2_offline_delegates_to_cache_witness :
    let env : FetchEnv :=
      { probeFails := false, isConnected := false, net := NetOutcome.netFailure
        storage := ⟨false, false, false, false⟩, now := 0 }
    env.probeFails = false ∧ env.isConnected = false ∧
      fetchNearbyTrails env [] 51 0 5000 none =
        { trails := fetchOfflineTrails env.storage [] 51 0
          networkRequested := false
          store := [] } :=
  ⟨rfl, rfl, claim2_offline_delegates_to_cache _ [] 51 0 5000 none rfl rfl⟩

/-- Claim C3: whenever the tag set matches at least one classifier predicate
and active filters are supplied, `getTrailType` returns the first matching
category in the fixed enumeration order Bridleway, Cycleway, Footpath whose
filter entry is true, and the first matching category in that order when
none is active; in particular a tag set matching both Bridleway and
Footpath with filters Bridleway off and Footpath on classifies as
Footpath. -/
theorem claim3_classifier_first_active_match :
    (∀ (tags : Tags) (af : String → Bool), possibleTypes tags ≠ [] →
        getTrailType tags (some af) =
          ((possibleTypes tags).filter af).headD ((possibleTypes tags).headD "Path")) ∧
      (∀ tags : Tags,
        List.Sublist (possibleTypes tags) ["Bridleway", "Cycleway", "Footpath"]) ∧
      getTrailType ⟨none, some "yes", none, some "yes", none, none⟩
        (some fun t => t == "Footpath") = "Footpath" := by
  refine ⟨?_, ?_, by decide⟩
  · intro tags af hne
    unfold getTrailType
    simp only [hne, if_false]
    cases hf : (possibleTypes tags).find? af with
    | some t =>
      have hh : (List.filter af (possibleTypes tags)).head? = some t := by
        rw [List.filter_head?, hf]
      simp [List.headD_eq_head?_getD, hh]
    | none =>
      have hfil : (possibleTypes tags).filter af = [] := by
        rw [List.filter_eq_nil_iff]
        intro a ha
        exact List.find?_eq_none.mp hf a ha
      rw [hfil]
      rfl
  · intro tags
    unfold possibleTypes
    split_ifs <;> decide

theorem claim3_classifier_first_active_match_witness :
    let tags : Tags := ⟨none, some "yes", none, some "yes", none, none⟩
    let af : String → Bool := fun t => t == "Footpath"
    possibleTypes tags ≠ [] ∧
      getTrailType tags (some af) =
        ((possibleTypes tags).filter af).headD ((possibleTypes tags).headD "Path") :=
  ⟨by decide,
    claim3_classifier_first_active_match.1
      ⟨none, some "yes", none, some "yes", none, none⟩ (fun t => t == "Footpath")
      (by decide)⟩

/-- Claim C8: a way carrying only `foot=designated` (respectively only
`bicycle=designated`) is rejected by the way-selection predicates, so
`processOsmData` emits no record for it, even though the classifier applied
to the same tags answers Footpath (respectively Cycleway): `isPathOrTrail`
accepts `foot`/`bicycle` only with value `yes`. -/
theorem claim8_designated_tags_selection_gap
    (nodeAt : ℤ → Option Coord) (af : Option (String → Bool)) (wid : ℤ)
    (nds : List ℤ) (nm : Option String) :
    (processElement nodeAt af
        (OsmElement.way wid (some ⟨none, none, none, some "designated", none, nm⟩) nds) =
          none ∧
      getTrailType ⟨none, none, none, some "designated", none, nm⟩ af = "Footpath") ∧
      (processElement nodeAt af
          (OsmElement.way wid (some ⟨none, none, some "designated", none, none, nm⟩) nds) =
            none ∧
        getTrailType ⟨none, none, some "designated", none, none, nm⟩ af = "Cycleway") := by
  refine ⟨⟨by simp [processElement, isPathOrTrail, isBridleway], ?_⟩,
    ⟨by simp [processElement, isPathOrTrail, isBridleway], ?_⟩⟩
  · unfold getTrailType possibleTypes
    cases af with
    | none => simp
    | some f =>
      simp only
      cases hf : f "Footpath" <;> simp [hf, List.find?]
  · unfold getTrailType possibleTypes
    cases af with
    | none => simp
    | some f =>
      simp only
      cases hf : f "Cycleway" <;> simp [hf, List.find?]

/-- The Haversine block inlined in the path loop agrees with the standalone
two-point `calculateDistance` (the two spell degree-to-radian conversion
differently but compute the same value). -/
theorem segmentInline_eq_calculateDistance (p q : Coord) :
    segmentInline p q = calculateDistance p.lat p.lon q.lat q.lon := by
  unfold segmentInline calculateDistance deg2rad
  ring_nf

/-- The accumulation loop sums the segment distances of consecutive pairs. -/
theorem pathLoop_eq_sum (l : List Coord) :
    ∀ p, pathLoop p l =
      (((p :: l).zip l).map fun pq =>
        calculateDistance pq.fst.lat pq.fst.lon pq.snd.lat pq.snd.lon).sum := by
  induction l with
  | nil => intro p; simp [pathLoop]
  | cons q rest ih =>
    intro p
    simp only [pathLoop, List.zip_cons_cons, List.map_cons, List.sum_cons, ih q,
      segmentInline_eq_calculateDistance]

/-- Claim C6: for every ordered coordinate sequence, `calculatePathDistance`
equals the sum of the pairwise great-circle segment distances
(`calculateDistance`) over consecutive points, and is 0 for sequences of
length 0 or 1. -/
theorem claim6_path_distance_is_segment_sum :
    (∀ coords : List Coord,
        calculatePathDistance coords =
          ((coords.zip coords.tail).map fun pq =>
            calculateDistance pq.fst.lat pq.fst.lon pq.snd.lat pq.snd.lon).sum) ∧
      calculatePathDistance [] = 0 ∧ ∀ p, calculatePathDistance [p] = 0 := by
  refine ⟨fun coords => ?_, rfl, fun p => rfl⟩
  cases coords with
  | nil => simp [calculatePathDistance]
  | cons p rest => simpa [calculatePathDistance] using pathLoop_eq_sum rest p

/-- A tag set whose only possible category is Footpath classifies as
Footpath under every filter argument. -/
theorem getTrailType_of_footpath_only (tags : Tags)
    (h : possibleTypes tags = ["Footpath"]) (af : Option (String → Bool)) :
    getTrailType tags af = "Footpath" := by
  unfold getTrailType
  rw [h]
  cases af with
  | none => simp
  | some f =>
    simp only
    cases hf : f "Footpath" <;> simp [hf, List.find?]

/-- Every category the classifier can place in its possible list is one of
the three named ones. -/
theorem mem_possibleTypes (tags : Tags) (x : String) (hx : x ∈ possibleTypes tags) :
    x = "Bridleway" ∨ x = "Cycleway" ∨ x = "Footpath" := by
  unfold possibleTypes at hx
  simp only [List.mem_append] at hx
  rcases hx with (hx | hx) | hx <;> split at hx <;> simp_all

/-- The classifier only ever answers one of the four fixed categories. -/
theorem getTrailType_mem (tags : Tags) (af : Option (String → Bool)) :
    getTrailType tags af = "Bridleway" ∨ getTrailType tags af = "Cycleway" ∨
      getTrailType tags af = "Footpath" ∨ getTrailType tags af = "Path" := by
  unfold getTrailType
  by_cases hp : possibleTypes tags = []
  · simp [hp]
  · simp only [hp, if_false]
    cases af with
    | some f =>
      cases hf : (possibleTypes tags).find? f with
      | some t =>
        have hm := mem_possibleTypes tags t (List.mem_of_find?_eq_some hf)
        simp only [hf]
        rcases hm with h | h | h <;> simp [h]
      | none =>
        simp only [hf]
        cases hpt : possibleTypes tags with
        | nil => exact absurd hpt hp
        | cons a l =>
          have hm := mem_possibleTypes tags a (hpt ▸ List.mem_cons_self a l)
          simp only [List.headD_cons]
          rcases hm with h | h | h <;> simp [h]
    | none =>
      simp only
      split_ifs <;> tauto

/-- `Math.atan2` is nonnegative when its first argument is. -/
theorem atan2_nonneg (y x : ℝ) (hy : 0 ≤ y) : 0 ≤ atan2 y x := by
  unfold atan2
  have hpi := Real.pi_pos
  have harc := Real.neg_pi_div_two_lt_arctan (y / x)
  split_ifs with h1 h2 h3 h4
  · calc (0:ℝ) = Real.arctan 0 := Real.arctan_zero.symm
      _ ≤ Real.arctan (y / x) := Real.arctan_strictMono.monotone (div_nonneg hy h1.le)
  all_goals linarith

/-- Each inlined Haversine segment is nonnegative. -/
theorem segmentInline_nonneg (p q : Coord) : 0 ≤ segmentInline p q := by
  unfold segmentInline
  have h := atan2_nonneg (Real.sqrt (Real.sin ((q.lat - p.lat) * π / 180 / 2) *
      Real.sin ((q.lat - p.lat) * π / 180 / 2) +
        Real.cos (p.lat * π / 180) * Real.cos (q.lat * π / 180) *
          Real.sin ((q.lon - p.lon) * π / 180 / 2) *
            Real.sin ((q.lon - p.lon) * π / 180 / 2)))
    (Real.sqrt (1 - (Real.sin ((q.lat - p.lat) * π / 180 / 2) *
      Real.sin ((q.lat - p.lat) * π / 180 / 2) +
        Real.cos (p.lat * π / 180) * Real.cos (q.lat * π / 180) *
          Real.sin ((q.lon - p.lon) * π / 180 / 2) *
            Real.sin ((q.lon - p.lon) * π / 180 / 2))))
    (Real.sqrt_nonneg _)
  positivity

/-- The path accumulation loop is nonnegative. -/
theorem pathLoop_nonneg (l : List Coord) : ∀ p, 0 ≤ pathLoop p l := by
  induction l with
  | nil => intro p; exact le_refl 0
  | cons q rest ih =>
    intro p
    have := segmentInline_nonneg p q
    have := ih q
    unfold pathLoop
    linarith

/-- A polyline's total length is nonnegative. -/
theorem calculatePathDistance_nonneg (coords : List Coord) :
    0 ≤ calculatePathDistance coords := by
  cases coords with
  | nil => exact le_refl 0
  | cons p rest => exact pathLoop_nonneg rest p

/-- Rounding to 2 decimals preserves nonnegativity. -/
theorem round2_nonneg (x : ℝ) (hx : 0 ≤ x) : 0 ≤ round2 x := by
  unfold round2
  have h1 : (0:ℝ) ≤ x * 100 + 1 / 2 := by linarith
  have h2 : (0:ℤ) ≤ round (x * 100) := by
    rw [round_eq]
    exact Int.floor_nonneg.mpr h1
  have h3 : (0:ℝ) ≤ ((round (x * 100) : ℤ) : ℝ) := Int.cast_nonneg.mpr h2
  positivity

/-- Claim C5: every record emitted by `processOsmData` satisfies the data
model: its type is one of the four fixed categories (with `Path` the
default when no predicate matches), it carries a coordinate sequence of at
least two points, its distance is the rounded Haversine path sum over that
sequence (hence nonnegative), and its id is the way's identifier behind
the `osm-` source prefix. -/
theorem claim5_record_invariants (d : OsmData) (af : Option (String → Bool))
    (t : Trail) (ht : t ∈ processOsmData d af) :
    (t.type = "Bridleway" ∨ t.type = "Cycleway" ∨ t.type = "Footpath" ∨
        t.type = "Path") ∧
      (∃ c, t.coordinates = some c ∧ 2 ≤ c.length ∧
        t.distance = round2 (calculatePathDistance c) ∧ 0 ≤ t.distance) ∧
      (∃ (i : ℤ) (tg : Option Tags) (nds : List ℤ),
        OsmElement.way i tg nds ∈ d.elements ∧ t.id = "osm-" ++ toString i) ∧
      (∀ (tags : Tags) (af' : Option (String → Bool)),
        possibleTypes tags = [] → getTrailType tags af' = "Path") := by
  unfold processOsmData at ht
  rw [List.mem_filterMap] at ht
  obtain ⟨el, hel, hsome⟩ := ht
  cases el with
  | node i la lo => exact absurd hsome (by simp [processElement])
  | relation i tg => exact absurd hsome (by simp [processElement])
  | way i tg nds =>
    cases tg with
    | none => exact absurd hsome (by simp [processElement])
    | some tags =>
      unfold processElement at hsome
      simp only at hsome
      by_cases hsel : (isPathOrTrail tags || isBridleway tags) = true
      · rw [if_pos hsel] at hsome
        by_cases hlen : 1 < (resolveCoords (lookupNode d.elements) nds).length
        · rw [if_pos hlen] at hsome
          have ht' := (Option.some_injective _ hsome).symm
          subst ht'
          refine ⟨getTrailType_mem tags af, ?_, ⟨i, some tags, nds, hel, rfl⟩, ?_⟩
          · exact ⟨resolveCoords (lookupNode d.elements) nds, rfl, by omega, rfl,
              round2_nonneg _ (calculatePathDistance_nonneg _)⟩
          · intro tags' af' hp
            unfold getTrailType
            simp [hp]
        · rw [if_neg hlen] at hsome
          exact absurd hsome (by simp)
      · rw [if_neg hsel] at hsome
        exact absurd hsome (by simp)

theorem claim5_record_invariants_witness :
    let d : OsmData :=
      ⟨[OsmElement.node 1 (0 : ℝ) 0, OsmElement.node 2 (0 : ℝ) 1,
        OsmElement.way 5 (some ⟨some "footway", none, none, none, none, none⟩) [1, 2]]⟩
    let t : Trail :=
      { id := "osm-" ++ toString (5 : ℤ)
        name := "Footpath Path"
        type := "Footpath"
        distance := round2 (calculatePathDistance [⟨0, 0⟩, ⟨0, 1⟩])
        coordinates := some [⟨0, 0⟩, ⟨0, 1⟩]
        lat := none
        lon := none }
    t ∈ processOsmData d none ∧
      ((t.type = "Bridleway" ∨ t.type = "Cycleway" ∨ t.type = "Footpath" ∨
          t.type = "Path") ∧
        (∃ c, t.coordinates = some c ∧ 2 ≤ c.length ∧
          t.distance = round2 (calculatePathDistance c) ∧ 0 ≤ t.distance) ∧
        (∃ (i : ℤ) (tg : Option Tags) (nds : List ℤ),
          OsmElement.way i tg nds ∈ d.elements ∧ t.id = "osm-" ++ toString i) ∧
        (∀ (tags : Tags) (af' : Option (String → Bool)),
          possibleTypes tags = [] → getTrailType tags af' = "Path")) := by
  have hmem : (⟨"osm-" ++ toString (5 : ℤ), "Footpath Path", "Footpath",
      round2 (calculatePathDistance [⟨0, 0⟩, ⟨0, 1⟩]), some [⟨0, 0⟩, ⟨0, 1⟩],
      none, none⟩ : Trail) ∈ processOsmData
        ⟨[OsmElement.node 1 (0 : ℝ) 0, OsmElement.node 2 (0 : ℝ) 1,
          OsmElement.way 5 (some ⟨some "footway", none, none, none, none, none⟩)
            [1, 2]]⟩ none := by
    have hft : getTrailType ⟨some "footway", none, none, none, none, none⟩ none =
        "Footpath" :=
      getTrailType_of_footpath_only _ (by decide) none
    simp [processOsmData, processElement, resolveCoords, lookupNode, isPathOrTrail, hft]
  exact ⟨hmem, claim5_record_invariants _ none _ hmem⟩

/-! Lemmas about the decimal rendering and `Number()` decoding of cache-key
coordinates. -/

theorem digitChar_isDigit (d : ℕ) (hd : d < 10) :
    48 ≤ (digitChar d).toNat ∧ (digitChar d).toNat ≤ 57 := by
  interval_cases d <;> decide

theorem charDigit_digitChar (d : ℕ) (hd : d < 10) : charDigit (digitChar d) = some d := by
  interval_cases d <;> decide

theorem digit_char_ne (c : Char) (h : 48 ≤ c.toNat ∧ c.toNat ≤ 57) :
    c ≠ '-' ∧ c ≠ '.' ∧ c ≠ '_' := by
  refine ⟨?_, ?_, ?_⟩ <;> rintro rfl <;> revert h <;> decide

theorem mem_encodeNat_digit (m : ℕ) (c : Char) (hc : c ∈ encodeNat m) :
    48 ≤ c.toNat ∧ c.toNat ≤ 57 := by
  unfold encodeNat at hc
  split_ifs at hc with hm
  · have : c = '0' := by simpa using hc
    subst this
    decide
  · rw [List.mem_reverse, List.mem_map] at hc
    obtain ⟨d, hd, rfl⟩ := hc
    exact digitChar_isDigit d (Nat.digits_lt_base (by norm_num) hd)

theorem encodeNat_ne_nil (m : ℕ) : encodeNat m ≠ [] := by
  unfold encodeNat
  split_ifs with hm
  · simp
  · simp [Nat.digits_ne_nil_iff_ne_zero, hm]

theorem mem_fracChars (f : ℕ) (hf : f < 100) (c : Char) (hc : c ∈ fracChars f) :
    c = '.' ∨ (48 ≤ c.toNat ∧ c.toNat ≤ 57) := by
  have hdiv : f / 10 < 10 := Nat.div_lt_of_lt_mul (by omega)
  have hmod : f % 10 < 10 := Nat.mod_lt f (by norm_num)
  unfold fracChars at hc
  split_ifs at hc with h1 h2
  · simp at hc
  · rcases (by simpa using hc : c = '.' ∨ c = digitChar (f / 10)) with rfl | rfl
    · exact Or.inl rfl
    · exact Or.inr (digitChar_isDigit _ hdiv)
  · rcases (by simpa using hc :
        c = '.' ∨ c = digitChar (f / 10) ∨ c = digitChar (f % 10)) with rfl | rfl | rfl
    · exact Or.inl rfl
    · exact Or.inr (digitChar_isDigit _ hdiv)
    · exact Or.inr (digitChar_isDigit _ hmod)

theorem mem_encodeCenti (n : ℤ) (c : Char) (hc : c ∈ encodeCenti n) :
    c = '-' ∨ c = '.' ∨ (48 ≤ c.toNat ∧ c.toNat ≤ 57) := by
  unfold encodeCenti at hc
  rw [List.mem_append] at hc
  rcases hc with hc | hc
  · split_ifs at hc
    · simp at hc
      exact Or.inl hc
    · simp at hc
  · rw [List.mem_append] at hc
    rcases hc with hc | hc
    · exact Or.inr (Or.inr (mem_encodeNat_digit _ c hc))
    · rcases mem_fracChars _ (Nat.mod_lt _ (by norm_num)) c hc with h | h
      · exact Or.inr (Or.inl h)
      · exact Or.inr (Or.inr h)

theorem underscore_not_mem_encodeCenti (n : ℤ) : '_' ∉ encodeCenti n := by
  intro h
  rcases mem_encodeCenti n _ h with h | h | h
  · exact absurd h (by decide)
  · exact absurd h (by decide)
  · exact absurd h (by decide)

theorem dot_not_mem_encodeNat (m : ℕ) : '.' ∉ encodeNat m := by
  intro h
  exact absurd (mem_encodeNat_digit m _ h) (by decide)

theorem splitOnChar_cons (sep c : Char) (cs : List Char) :
    splitOnChar sep (c :: cs) =
      if c = sep then [] :: splitOnChar sep cs
      else (c :: (splitOnChar sep cs).headD []) :: (splitOnChar sep cs).tail := rfl

theorem splitOnChar_eq_single (sep : Char) (cs : List Char) (h : sep ∉ cs) :
    splitOnChar sep cs = [cs] := by
  induction cs with
  | nil => rfl
  | cons c cs ih =>
    rw [List.mem_cons, not_or] at h
    have hne : ¬c = sep := fun hc => h.1 hc.symm
    rw [splitOnChar_cons, ih h.2, if_neg hne]
    simp

theorem splitOnChar_append (sep : Char) (xs ys : List Char) (h : sep ∉ xs) :
    splitOnChar sep (xs ++ sep :: ys) = xs :: splitOnChar sep ys := by
  induction xs with
  | nil =>
    simp only [List.nil_append]
    rw [splitOnChar_cons, if_pos rfl]
  | cons x xs ih =>
    rw [List.mem_cons, not_or] at h
    have hne : ¬x = sep := fun hc => h.1 hc.symm
    simp only [List.cons_append]
    rw [splitOnChar_cons, ih h.2, if_neg hne]
    simp

theorem foldl_parseStep_digits (ds : List ℕ) (hd : ∀ d ∈ ds, d < 10) :
    ∀ acc : ℕ, List.foldl parseStep (some acc) ((ds.map digitChar).reverse) =
      some (acc * 10 ^ ds.length + Nat.ofDigits 10 ds) := by
  induction ds with
  | nil => intro acc; simp [Nat.ofDigits_nil]
  | cons d tl ih =>
    intro acc
    have hdd : d < 10 := hd d (List.mem_cons_self d tl)
    have htl : ∀ x ∈ tl, x < 10 := fun x hx => hd x (List.mem_cons_of_mem d hx)
    rw [List.map_cons, List.reverse_cons, List.foldl_append, ih htl acc]
    simp [parseStep, charDigit_digitChar d hdd, Nat.ofDigits_cons]
    ring

theorem parseDigits_encodeNat (m : ℕ) : parseDigits (encodeNat m) = some m := by
  by_cases hm : m = 0
  · subst hm
    decide
  · unfold encodeNat
    rw [if_neg hm]
    have hne : Nat.digits 10 m ≠ [] := Nat.digits_ne_nil_iff_ne_zero.mpr hm
    unfold parseDigits parseVal
    rw [if_neg (by simp [hne])]
    rw [foldl_parseStep_digits _ (fun d hd => Nat.digits_lt_base (by norm_num) hd) 0]
    simp [Nat.ofDigits_digits]

theorem parseUnsigned_eq_of_single (cs ip : List Char) (h : splitOnChar '.' cs = [ip]) :
    parseUnsigned cs =
      match parseDigits ip with
      | some n => some (n : ℚ)
      | none => none := by
  unfold parseUnsigned
  rw [h]

theorem parseUnsigned_eq_of_pair (cs ip fp : List Char)
    (h : splitOnChar '.' cs = [ip, fp]) :
    parseUnsigned cs =
      match parseDigits ip, parseDigits fp with
      | some i, some f => some ((i : ℚ) + (f : ℚ) / 10 ^ fp.length)
      | _, _ => none := by
  unfold parseUnsigned
  rw [h]

theorem parseUnsigned_encode_frac (m : ℕ) :
    parseUnsigned (encodeNat (m / 100) ++ fracChars (m % 100)) = some ((m : ℚ) / 100) := by
  have hm : 100 * (m / 100) + m % 100 = m := Nat.div_add_mod m 100
  have hf100 : m % 100 < 100 := Nat.mod_lt m (by norm_num)
  have hdiv : m % 100 / 10 < 10 := Nat.div_lt_of_lt_mul (by omega)
  have hmod : m % 100 % 10 < 10 := Nat.mod_lt _ (by norm_num)
  by_cases hf : m % 100 = 0
  · rw [hf]
    show parseUnsigned (encodeNat (m / 100) ++ []) = some ((m : ℚ) / 100)
    rw [List.append_nil,
      parseUnsigned_eq_of_single _ _ (splitOnChar_eq_single '.' _ (dot_not_mem_encodeNat _)),
      parseDigits_encodeNat]
    have hcast : (m : ℚ) = 100 * (m / 100 : ℕ) := by
      exact_mod_cast congrArg (Nat.cast : ℕ → ℚ) (by omega : m = 100 * (m / 100))
    rw [hcast]
    norm_num
  · by_cases hf10 : m % 100 % 10 = 0
    · have hfr : fracChars (m % 100) = ['.', digitChar (m % 100 / 10)] := by
        unfold fracChars
        rw [if_neg hf, if_pos hf10]
      rw [hfr]
      have hsplit : splitOnChar '.' (encodeNat (m / 100) ++ '.' :: [digitChar (m % 100 / 10)]) =
          [encodeNat (m / 100), [digitChar (m % 100 / 10)]] := by
        rw [splitOnChar_append '.' _ _ (dot_not_mem_encodeNat _),
          splitOnChar_eq_single '.' _ (by
            intro hmem
            have hdot := (by simpa using hmem : '.' = digitChar (m % 100 / 10))
            exact absurd hdot.symm (digit_char_ne _ (digitChar_isDigit _ hdiv)).2.1)]
      rw [show encodeNat (m / 100) ++ ['.', digitChar (m % 100 / 10)] =
          encodeNat (m / 100) ++ '.' :: [digitChar (m % 100 / 10)] from rfl,
        parseUnsigned_eq_of_pair _ _ _ hsplit, parseDigits_encodeNat]
      have hp : parseDigits [digitChar (m % 100 / 10)] = some (m % 100 / 10) := by
        unfold parseDigits parseVal
        simp [parseStep, charDigit_digitChar _ hdiv]
      rw [hp]
      simp only [List.length_cons, List.length_nil]
      have h10 : 10 * (m % 100 / 10) = m % 100 :=
        Nat.mul_div_cancel' (Nat.dvd_of_mod_eq_zero hf10)
      have hcast : (m : ℚ) = 100 * (m / 100 : ℕ) + 10 * (m % 100 / 10 : ℕ) := by
        exact_mod_cast congrArg (Nat.cast : ℕ → ℚ)
          (by omega : m = 100 * (m / 100) + 10 * (m % 100 / 10))
      rw [hcast]
      norm_num
      ring
    · have hfr : fracChars (m % 100) =
          ['.', digitChar (m % 100 / 10), digitChar (m % 100 % 10)] := by
        unfold fracChars
        rw [if_neg hf, if_neg hf10]
      rw [hfr]
      have hsplit : splitOnChar '.'
          (encodeNat (m / 100) ++ '.' :: [digitChar (m % 100 / 10), digitChar (m % 100 % 10)]) =
          [encodeNat (m / 100), [digitChar (m % 100 / 10), digitChar (m % 100 % 10)]] := by
        rw [splitOnChar_append '.' _ _ (dot_not_mem_encodeNat _),
          splitOnChar_eq_single '.' _ (by
            intro hmem
            rcases (by simpa using hmem :
                '.' = digitChar (m % 100 / 10) ∨ '.' = digitChar (m % 100 % 10)) with h | h
            · exact absurd h.symm (digit_char_ne _ (digitChar_isDigit _ hdiv)).2.1
            · exact absurd h.symm (digit_char_ne _ (digitChar_isDigit _ hmod)).2.1)]
      rw [show encodeNat (m / 100) ++ ['.', digitChar (m % 100 / 10), digitChar (m % 100 % 10)] =
          encodeNat (m / 100) ++ '.' :: [digitChar (m % 100 / 10), digitChar (m % 100 % 10)]
          from rfl,
        parseUnsigned_eq_of_pair _ _ _ hsplit, parseDigits_encodeNat]
      have hp : parseDigits [digitChar (m % 100 / 10), digitChar (m % 100 % 10)] =
          some (m % 100 / 10 * 10 + m % 100 % 10) := by
        unfold parseDigits parseVal
        simp [parseStep, charDigit_digitChar _ hdiv, charDigit_digitChar _ hmod]
      rw [hp]
      simp only [List.length_cons, List.length_nil]
      have hval : m % 100 / 10 * 10 + m % 100 % 10 = m % 100 := by omega
      rw [hval]
      have hcast : (m : ℚ) = 100 * (m / 100 : ℕ) + (m % 100 : ℕ) := by
        exact_mod_cast congrArg (Nat.cast : ℕ → ℚ) (by omega : m = 100 * (m / 100) + m % 100)
      rw [hcast]
      norm_num
      ring

theorem parseNum_encodeCenti (n : ℤ) : parseNum (encodeCenti n) = some ((n : ℚ) / 100) := by
  unfold encodeCenti
  by_cases hn : n < 0
  · rw [if_pos hn]
    show parseNum ('-' :: (encodeNat (n.natAbs / 100) ++ fracChars (n.natAbs % 100))) = _
    unfold parseNum
    rw [if_pos (by simp)]
    simp only [List.tail_cons, parseUnsigned_encode_frac n.natAbs]
    have habs : ((n.natAbs : ℕ) : ℚ) = -(n : ℚ) := by
      rw [← Int.cast_natCast (R := ℚ) n.natAbs,
        Int.ofNat_natAbs_of_nonpos (le_of_lt hn), Int.cast_neg]
    rw [habs]
    simp [neg_div]
  · rw [if_neg hn, List.nil_append]
    have hhead : (encodeNat (n.natAbs / 100) ++ fracChars (n.natAbs % 100)).head? ≠
        some '-' := by
      cases hE : encodeNat (n.natAbs / 100) with
      | nil => exact absurd hE (encodeNat_ne_nil _)
      | cons c cs' =>
        simp only [hE, List.cons_append, List.head?_cons]
        intro hcontra
        have hc : c ∈ encodeNat (n.natAbs / 100) := hE ▸ List.mem_cons_self c cs'
        exact absurd (Option.some_injective _ hcontra)
          (digit_char_ne c (mem_encodeNat_digit _ c hc)).1
    unfold parseNum
    rw [if_neg hhead, parseUnsigned_encode_frac n.natAbs]
    have habs : ((n.natAbs : ℕ) : ℚ) = (n : ℚ) := by
      rw [← Int.cast_natCast (R := ℚ) n.natAbs,
        Int.natAbs_of_nonneg (le_of_not_lt hn)]
    rw [habs]

/-- Decoding a freshly written cache key recovers exactly the rounded
coordinates that built it. -/
theorem keyParse_cacheKey (latitude longitude : ℝ) :
    keyParse (cacheKey latitude longitude) =
      (some (roundTo2 latitude), some (roundTo2 longitude)) := by
  unfold keyParse cacheKey roundTo2
  have h1 : '_' ∉ "trails".data := by decide
  rw [splitOnChar_append '_' _ _ h1,
    splitOnChar_append '_' _ _ (underscore_not_mem_encodeCenti _),
    splitOnChar_eq_single '_' _ (underscore_not_mem_encodeCenti _)]
  simp [parseNum_encodeCenti]

/-- Claim C9: for every latitude and longitude — negative values included —
the key written by the cache write path decodes, under the read path's
split-on-underscore-and-`Number` decoding, to exactly the rounded
coordinates that built it, so the Euclidean nearest-key search measures
each entry from its true rounded coordinates (a minus sign is never
confused with the underscore separator). -/
theorem claim9_cache_key_decodes_to_rounded_point (latitude longitude : ℝ)
    (rlat rlon : ℚ) :
    keyParse (cacheKey latitude longitude) =
      (some (roundTo2 latitude), some (roundTo2 longitude)) ∧
      keyDist rlat rlon (cacheKey latitude longitude) =
        some (Real.sqrt (((roundTo2 latitude : ℚ) - rlat : ℚ) ^ 2 +
          ((roundTo2 longitude : ℚ) - rlon : ℚ) ^ 2)) := by
  refine ⟨keyParse_cacheKey latitude longitude, ?_⟩
  unfold keyDist
  rw [keyParse_cacheKey]
  push_cast
  ring_nf

/-- Reading back through the offline path from a store holding exactly one
freshly written entry returns that entry's trail list, whatever the write
and read points were. -/
theorem fetchOffline_single_entry (lat1 lon1 lat2 lon2 : ℝ)
    (trails : List Trail) (now : ℤ) :
    fetchOfflineTrails ⟨false, false, false, false⟩
      (cacheTrailData ⟨false, false, false, false⟩ [] lat1 lon1 trails now)
      lat2 lon2 = trails := by
  have hstore : cacheTrailData ⟨false, false, false, false⟩ [] lat1 lon1 trails now =
      [(cacheKey lat1 lon1, ⟨now, trails⟩)] := by
    simp [cacheTrailData, setItem]
  rw [hstore]
  have hpre : "trails_".data.isPrefixOf (cacheKey lat1 lon1) = true := by
    rw [ List.isPrefixOf_iff_prefix]
    unfold cacheKey
    exact ⟨encodeCenti (round (lat1 * 100)) ++ '_' :: encodeCenti (round (lon1 * 100)),
      by simp⟩
  have hdist : keyDist (roundTo2 lat2) (roundTo2 lon2) (cacheKey lat1 lon1) =
      some (Real.sqrt ((((roundTo2 lat1 : ℚ) : ℝ) - ((roundTo2 lat2 : ℚ) : ℝ)) ^ 2 +
        (((roundTo2 lon1 : ℚ) : ℝ) - ((roundTo2 lon2 : ℚ) : ℝ)) ^ 2)) := by
    unfold keyDist
    rw [keyParse_cacheKey]
  unfold fetchOfflineTrails
  simp [getAllKeys, getItem, findClosest, hpre, hdist, jsLt, List.lookup]

/-- Claim C7: starting from an empty cache, writing a trail list for the
point (51.50, -0.12) and then reading nearest for (51.50, -0.13) returns
the identical trail list. -/
theorem claim7_cache_write_read_roundtrip (trails : List Trail) (now : ℤ) :
    fetchOfflineTrails ⟨false, false, false, false⟩
      (cacheTrailData ⟨false, false, false, false⟩ [] 51.50 (-0.12) trails now)
      51.50 (-0.13) = trails :=
  fetchOffline_single_entry 51.50 (-0.12) 51.50 (-0.13) trails now

/-- Claim C10: a selected way whose name tag is the empty string gets the
defaulted name; the empty string is treated like an absent name. -/
theorem claim10_empty_name_defaulted (nodeAt : ℤ → Option Coord)
    (af : Option (String → Bool)) (wid : ℤ) (nds : List ℤ) (tags : Tags)
    (hname : tags.name = some "")
    (hsel : (isPathOrTrail tags || isBridleway tags) = true)
    (hlen : 1 < (resolveCoords nodeAt nds).length) :
    ∃ t, processElement nodeAt af (OsmElement.way wid (some tags) nds) = some t ∧
      t.name = getTrailType tags af ++ " Path" := by
  refine
    ⟨{ id := "osm-" ++ toString wid
       name := getTrailType tags af ++ " Path"
       type := getTrailType tags af
       distance := round2 (calculatePathDistance (resolveCoords nodeAt nds))
       coordinates := some (resolveCoords nodeAt nds)
       lat := none
       lon := none }, ?_, rfl⟩
  unfold processElement
  simp only [hsel, if_true, hname, hlen]

/-- Claim C4: a raw response holding three distinct resolvable nodes and one
way tagged `highway=footway` referencing them yields exactly one record —
of type Footpath, with the three resolved coordinates and the rounded
Haversine path sum as distance — and a way whose node list resolves to
fewer than 2 points yields no record. -/
theorem claim4_footway_three_nodes (n1 n2 n3 wid : ℤ) (p1 p2 p3 : Coord)
    (af : Option (String → Bool))
    (h12 : n1 ≠ n2) (h13 : n1 ≠ n3) (h23 : n2 ≠ n3) :
    processOsmData
        ⟨[OsmElement.node n1 p1.lat p1.lon, OsmElement.node n2 p2.lat p2.lon,
          OsmElement.node n3 p3.lat p3.lon,
          OsmElement.way wid (some ⟨some "footway", none, none, none, none, none⟩)
            [n1, n2, n3]]⟩ af =
      [{ id := "osm-" ++ toString wid
         name := "Footpath Path"
         type := "Footpath"
         distance := round2 (calculatePathDistance [p1, p2, p3])
         coordinates := some [p1, p2, p3]
         lat := none
         lon := none }] ∧
    ∀ (nodeAt : ℤ → Option Coord) (af' : Option (String → Bool)) (wid' : ℤ)
      (tags : Option Tags) (nds : List ℤ),
      (resolveCoords nodeAt nds).length < 2 →
      processElement nodeAt af' (OsmElement.way wid' tags nds) = none := by
  constructor
  · have hft : getTrailType ⟨some "footway", none, none, none, none, none⟩ af = "Footpath" :=
      getTrailType_of_footpath_only _ (by decide) af
    simp [processOsmData, processElement, resolveCoords, lookupNode,
      h12, h13, h23, h12.symm, h13.symm, h23.symm, hft, isPathOrTrail]
  · intro nodeAt af' wid' tags nds hlen
    unfold processElement
    cases tags with
    | none => rfl
    | some t =>
      simp only
      split
      · rw [if_neg]
        omega
      · rfl

theorem claim4_footway_three_nodes_witness :
    (1 : ℤ) ≠ 2 ∧ (1 : ℤ) ≠ 3 ∧ (2 : ℤ) ≠ 3 ∧
      (processOsmData
          ⟨[OsmElement.node 1 (0 : ℝ) 0, OsmElement.node 2 (0 : ℝ) 1,
            OsmElement.node 3 (1 : ℝ) 1,
            OsmElement.way 9 (some ⟨some "footway", none, none, none, none, none⟩)
              [1, 2, 3]]⟩ none =
        [{ id := "osm-" ++ toString (9 : ℤ)
           name := "Footpath Path"
           type := "Footpath"
           distance := round2 (calculatePathDistance [⟨0, 0⟩, ⟨0, 1⟩, ⟨1, 1⟩])
           coordinates := some [⟨0, 0⟩, ⟨0, 1⟩, ⟨1, 1⟩]
           lat := none
           lon := none }] ∧
      ∀ (nodeAt : ℤ → Option Coord) (af' : Option (String → Bool)) (wid' : ℤ)
        (tags : Option Tags) (nds : List ℤ),
        (resolveCoords nodeAt nds).length < 2 →
        processElement nodeAt af' (OsmElement.way wid' tags nds) = none) :=
  ⟨by decide, by decide, by decide,
    claim4_footway_three_nodes 1 2 3 9 ⟨0, 0⟩ ⟨0, 1⟩ ⟨1, 1⟩ none
      (by decide) (by decide) (by decide)⟩

theorem claim10_empty_name_defaulted_witness :
    let tags : Tags := ⟨some "footway", none, none, none, none, some ""⟩
    let nodeAt : ℤ → Option Coord := fun i =>
      if i = 1 then some ⟨0, 0⟩ else if i = 2 then some ⟨0, 1⟩ else none
    tags.name = some "" ∧ (isPathOrTrail tags || isBridleway tags) = true ∧
      1 < (resolveCoords nodeAt [1, 2]).length ∧
      ∃ t, processElement nodeAt none (OsmElement.way 7 (some tags) [1, 2]) = some t ∧
        t.name = getTrailType tags none ++ " Path" :=
  ⟨rfl, by decide, by decide,
    claim10_empty_name_defaulted _ none 7 [1, 2] _ rfl (by decide) (by decide)⟩
